import Mathlib

/-!
Verification development for the go4thepin golf-league core:
the handicap engine (src/utils/handicap.ts) and the leaderboard
aggregator (src/composables/useLeaderboard.ts).

Numbers are modelled as rationals; JavaScript Math.round is modelled
exactly (round half toward positive infinity). Date strings are
modelled by their millisecond timestamps, which is what the code
compares after parsing.
-/

/-- JavaScript Math.round: nearest integer, halves toward positive infinity. -/
def jsRound (x : ℚ) : ℤ := ⌊x + 1 / 2⌋

/-- Rounding to one decimal place as the source does it: Math.round(x * 10) / 10. -/
def round1 (x : ℚ) : ℚ := (jsRound (x * 10) : ℚ) / 10

/-- Record shape fed to calculateHandicapIndex (handicap.ts lines 10-15). -/
structure ScoreDifferentialData where
  adjustedGrossScore : ℚ
  courseRating : ℚ
  slopeRating : ℚ
  playedDate : ℤ
deriving DecidableEq

/-- Result shape of calculateHandicapIndex (handicap.ts lines 17-22). -/
structure HandicapCalculationResult where
  handicapIndex : ℚ
  numberOfScoresUsed : ℕ
  scoresUsed : List ScoreDifferentialData
  averageDifferential : ℚ
deriving DecidableEq

/-- calculateScoreDifferential (handicap.ts lines 28-35). -/
def calculateScoreDifferential (adjustedGrossScore courseRating slopeRating : ℚ) : ℚ :=
  round1 ((113 / slopeRating) * (adjustedGrossScore - courseRating))

/-- The differential the code attaches to a record (handicap.ts lines 126-133). -/
def diffOf (d : ScoreDifferentialData) : ℚ :=
  calculateScoreDifferential d.adjustedGrossScore d.courseRating d.slopeRating

/-- calculateAdjustedGrossScore (handicap.ts lines 48-79): Equitable Stroke
Control.  Throwing is modelled by Except. -/
def calculateAdjustedGrossScore (holeScores holePars : List ℚ) (courseHandicap : ℚ) :
    Except String ℚ :=
  if holeScores.length ≠ holePars.length then
    Except.error "Hole scores and pars arrays must have the same length"
  else if courseHandicap ≤ 9 then
    Except.ok ((holeScores.zip holePars).foldl (fun sum sp => sum + min sp.1 (sp.2 + 2)) 0)
  else
    let maxScorePerHole : ℚ :=
      if courseHandicap ≤ 19 then 7
      else if courseHandicap ≤ 29 then 8
      else if courseHandicap ≤ 39 then 9
      else 10
    Except.ok (holeScores.foldl (fun sum score => sum + min score maxScorePerHole) 0)

/-- calculateCourseHandicap (handicap.ts lines 86-94); the source gives par a
default value of 72 at the call site. -/
def calculateCourseHandicap (handicapIndex slopeRating courseRating par : ℚ) : ℤ :=
  jsRound (handicapIndex * (slopeRating / 113) + (courseRating - par))

/-- The round-count ladder inside calculateHandicapIndex (handicap.ts lines 139-156). -/
def numberOfDifferentialsToUse (totalRounds : ℕ) : ℕ :=
  if totalRounds ≤ 6 then 1
  else if totalRounds ≤ 8 then 2
  else if totalRounds ≤ 11 then 3
  else if totalRounds ≤ 14 then 4
  else if totalRounds ≤ 16 then 5
  else if totalRounds ≤ 18 then 6
  else if totalRounds = 19 then 7
  else 8

/-- Sort by date, most recent first, then keep the most recent 20
(handicap.ts lines 121-123).  The JavaScript sort is stable, as is
insertionSort with a reflexive total order. -/
def recentRounds (scoreDifferentials : List ScoreDifferentialData) :
    List ScoreDifferentialData :=
  (List.insertionSort (fun a b => b.playedDate ≤ a.playedDate) scoreDifferentials).take 20

/-- Attach differentials and sort ascending by differential
(handicap.ts lines 126-136). -/
def sortedDifferentials (scoreDifferentials : List ScoreDifferentialData) :
    List (ScoreDifferentialData × ℚ) :=
  List.insertionSort (fun a b => a.2 ≤ b.2)
    ((recentRounds scoreDifferentials).map (fun r => (r, diffOf r)))

/-- calculateHandicapIndex (handicap.ts lines 110-182). -/
def calculateHandicapIndex (scoreDifferentials : List ScoreDifferentialData) :
    Option HandicapCalculationResult :=
  if scoreDifferentials.length < 5 then none
  else
    let n := numberOfDifferentialsToUse scoreDifferentials.length
    let best := (sortedDifferentials scoreDifferentials).take n
    let avg := (best.map (fun d => d.2)).sum / (n : ℚ)
    some
      { handicapIndex := round1 avg
        numberOfScoresUsed := n
        scoresUsed := best.map (fun d => d.1)
        averageDifferential := avg }

/-- calculateNetScore (handicap.ts lines 187-189). -/
def calculateNetScore (grossScore courseHandicap : ℚ) : ℚ :=
  grossScore - courseHandicap

/-!  Leaderboard aggregator (useLeaderboard.ts). -/

/-- Profile columns joined onto each round row (useLeaderboard.ts lines 56-61). -/
structure ProfileRow where
  firstName : String
  lastName : String
  currentHandicapIndex : Option ℚ
deriving DecidableEq

/-- A fetched round row (useLeaderboard.ts lines 49-64); a null course_handicap
is modelled as none. -/
structure RoundRow where
  id : String
  userId : String
  totalScore : ℚ
  courseHandicap : Option ℚ
  user : ProfileRow
deriving DecidableEq

/-- LeaderboardEntry (useLeaderboard.ts lines 5-18). -/
structure LeaderboardEntry where
  userId : String
  userName : String
  userFirstName : String
  userLastName : String
  grossScore : ℚ
  netScore : ℚ
  courseHandicap : ℚ
  handicapIndex : Option ℚ
  position : ℕ
  roundId : String
  thru : Option ℕ
  scoreToPar : Option ℚ
deriving DecidableEq

/-- The sortBy parameter of the three fetch functions. -/
inductive SortBy where
  | gross
  | net
deriving DecidableEq

/-- The score the comparator and the tie test read off an entry
(useLeaderboard.ts lines 92-94). -/
def scoreOf (sortBy : SortBy) (e : LeaderboardEntry) : ℚ :=
  match sortBy with
  | SortBy.gross => e.grossScore
  | SortBy.net => e.netScore

/-- One iteration of the shared position loop writes this field. -/
def setPosition (e : LeaderboardEntry) (p : ℕ) : LeaderboardEntry :=
  { e with position := p }

/-- Body of the position-assignment loop for indices 1 and up
(useLeaderboard.ts lines 99-111): i is the index of the head of the
remaining list, cur the running currentPosition, prev the entry at i - 1. -/
def rankAux {α : Type _} (s : α → ℚ) : ℕ → ℕ → α → List α → List ℕ
  | _, _, _, [] => []
  | i, cur, prev, a :: rest =>
    let p := if s a ≠ s prev then i + 1 else cur
    p :: rankAux s (i + 1) p a rest

/-- The position list the shared loop computes: index 0 always keeps
currentPosition = 1, later indices compare with their predecessor
(useLeaderboard.ts lines 97-111, 223-236 and 292-305). -/
def rankPositions {α : Type _} (s : α → ℚ) : List α → List ℕ
  | [] => []
  | a :: rest => 1 :: rankAux s 1 1 a rest

/-- Transform of one fetched row into an entry (useLeaderboard.ts lines 70-88):
a missing course_handicap becomes 0, netScore is gross minus that. -/
def mkEventEntry (round : RoundRow) : LeaderboardEntry :=
  { userId := round.userId
    userName := round.user.firstName ++ " " ++ round.user.lastName
    userFirstName := round.user.firstName
    userLastName := round.user.lastName
    grossScore := round.totalScore
    netScore := calculateNetScore round.totalScore (round.courseHandicap.getD 0)
    courseHandicap := round.courseHandicap.getD 0
    handicapIndex := round.user.currentHandicapIndex
    position := 0
    roundId := round.id
    thru := none
    scoreToPar := some (round.totalScore - 72) }

/-- The ascending sort by the chosen score (useLeaderboard.ts lines 91-95);
JavaScript sort is stable, as is insertionSort. -/
def sortEntries (sortBy : SortBy) (entries : List LeaderboardEntry) :
    List LeaderboardEntry :=
  List.insertionSort (fun a b => scoreOf sortBy a ≤ scoreOf sortBy b) entries

/-- Sort then write positions: the tail of every fetch function. -/
def rankEntries (sortBy : SortBy) (entries : List LeaderboardEntry) :
    List LeaderboardEntry :=
  let sorted := sortEntries sortBy entries
  List.zipWith setPosition sorted (rankPositions (scoreOf sortBy) sorted)

/-- The pure computation inside fetchEventLeaderboard
(useLeaderboard.ts lines 70-113). -/
def computeEventLeaderboard (rounds : List RoundRow) (sortBy : SortBy) :
    List LeaderboardEntry :=
  rankEntries sortBy (rounds.map mkEventEntry)

/-- fetchEventLeaderboard (useLeaderboard.ts lines 40-121) with the supabase
response made an explicit argument: an upstream error is caught, recorded in
errorMessage and an empty list returned; a null or empty rounds payload
returns an empty list with no error.  The pair is (returned list, errorMessage). -/
def fetchEventLeaderboard (fetched : Except String (Option (List RoundRow)))
    (sortBy : SortBy) : List LeaderboardEntry × String :=
  match fetched with
  | Except.error m => ([], "Failed to fetch leaderboard: " ++ m)
  | Except.ok none => ([], "")
  | Except.ok (some rounds) =>
    if rounds.isEmpty then ([], "")
    else (computeEventLeaderboard rounds sortBy, "")

/-- Per-user accumulator of the season aggregation Map
(useLeaderboard.ts lines 165-174). -/
structure UserAgg where
  userId : String
  userName : String
  userFirstName : String
  userLastName : String
  handicapIndex : Option ℚ
  totalGross : ℚ
  totalNet : ℚ
  roundCount : ℕ
deriving DecidableEq

/-- One step of the aggregation loop (useLeaderboard.ts lines 176-199);
the JavaScript Map preserves first-insertion order, modelled by an
in-place update of the matching record or an append. -/
def addRound (acc : List UserAgg) (round : RoundRow) : List UserAgg :=
  let grossScore := round.totalScore
  let netScore := calculateNetScore grossScore (round.courseHandicap.getD 0)
  if acc.any (fun u => u.userId = round.userId) then
    acc.map (fun u =>
      if u.userId = round.userId then
        { u with
          totalGross := u.totalGross + grossScore
          totalNet := u.totalNet + netScore
          roundCount := u.roundCount + 1 }
      else u)
  else
    acc ++ [{ userId := round.userId
              userName := round.user.firstName ++ " " ++ round.user.lastName
              userFirstName := round.user.firstName
              userLastName := round.user.lastName
              handicapIndex := round.user.currentHandicapIndex
              totalGross := grossScore
              totalNet := netScore
              roundCount := 1 }]

/-- The whole aggregation pass (useLeaderboard.ts lines 176-199). -/
def aggregateRounds (rounds : List RoundRow) : List UserAgg :=
  rounds.foldl addRound []

/-- Reduction of one aggregate to an entry carrying averages
(useLeaderboard.ts lines 202-214). -/
def seasonEntry (u : UserAgg) : LeaderboardEntry :=
  { userId := u.userId
    userName := u.userName
    userFirstName := u.userFirstName
    userLastName := u.userLastName
    grossScore := (jsRound (u.totalGross / (u.roundCount : ℚ)) : ℚ)
    netScore := (jsRound (u.totalNet / (u.roundCount : ℚ)) : ℚ)
    courseHandicap := 0
    handicapIndex := u.handicapIndex
    position := 0
    roundId := ""
    thru := some u.roundCount
    scoreToPar := none }

/-- The full ranked season list, before truncation
(useLeaderboard.ts lines 202-236). -/
def seasonRanked (rounds : List RoundRow) (sortBy : SortBy) :
    List LeaderboardEntry :=
  rankEntries sortBy ((aggregateRounds rounds).map seasonEntry)

/-- The pure computation inside fetchSeasonStandings
(useLeaderboard.ts lines 164-238): rank on the full aggregate, then slice. -/
def computeSeasonStandings (rounds : List RoundRow) (sortBy : SortBy)
    (limit : ℕ) : List LeaderboardEntry :=
  (seasonRanked rounds sortBy).take limit

/-- fetchSeasonStandings (useLeaderboard.ts lines 126-246) with the supabase
response explicit, as for the event wrapper. -/
def fetchSeasonStandings (fetched : Except String (Option (List RoundRow)))
    (sortBy : SortBy) (limit : ℕ) : List LeaderboardEntry × String :=
  match fetched with
  | Except.error m => ([], "Failed to fetch season standings: " ++ m)
  | Except.ok none => ([], "")
  | Except.ok (some rounds) =>
    if rounds.isEmpty then ([], "")
    else (computeSeasonStandings rounds sortBy limit, "")

/-- A fetched team_scores row (useLeaderboard.ts lines 260-270). -/
structure TeamScoreRow where
  teamId : String
  totalScore : ℚ
  teamName : String
deriving DecidableEq

/-- TeamLeaderboardEntry (useLeaderboard.ts lines 20-31); members stay empty
in the source. -/
structure TeamLeaderboardEntry where
  teamId : String
  teamName : String
  totalGrossScore : ℚ
  totalNetScore : ℚ
  position : ℕ
deriving DecidableEq

/-- The score the team comparator reads (useLeaderboard.ts lines 287-289). -/
def teamScoreOf (sortBy : SortBy) (e : TeamLeaderboardEntry) : ℚ :=
  match sortBy with
  | SortBy.gross => e.totalGrossScore
  | SortBy.net => e.totalNetScore

/-- Position write for team entries. -/
def setTeamPosition (e : TeamLeaderboardEntry) (p : ℕ) : TeamLeaderboardEntry :=
  { e with position := p }

/-- The pure computation inside fetchTeamLeaderboard
(useLeaderboard.ts lines 276-307): both scores are the stored total, then
the same sort and position loop as the other two leaderboards. -/
def computeTeamLeaderboard (teamScores : List TeamScoreRow) (sortBy : SortBy) :
    List TeamLeaderboardEntry :=
  let entries := teamScores.map (fun ts =>
    { teamId := ts.teamId
      teamName := ts.teamName
      totalGrossScore := ts.totalScore
      totalNetScore := ts.totalScore
      position := 0 : TeamLeaderboardEntry })
  let sorted := List.insertionSort
    (fun a b => teamScoreOf sortBy a ≤ teamScoreOf sortBy b) entries
  List.zipWith setTeamPosition sorted (rankPositions (teamScoreOf sortBy) sorted)

/-!  Claim-side definitions, written from the wording of the specification,
to be compared with the definitions above. -/

/-- Round-half-away-from-zero, the rounding mode the specification names for
the course handicap. -/
def roundHalfAwayFromZero (q : ℚ) : ℤ :=
  if 0 ≤ q then ⌊q + 1 / 2⌋ else -⌊-q + 1 / 2⌋

/-- The round-count table exactly as the claim words it:
5-6 rounds use 1, 7-8 use 2, 9-11 use 3, 12-14 use 4, 15-16 use 5,
17-18 use 6, 19 uses 7, 20 or more use 8. -/
def claimRoundCountTable (n : ℕ) : ℕ :=
  if 5 ≤ n ∧ n ≤ 6 then 1
  else if 7 ≤ n ∧ n ≤ 8 then 2
  else if 9 ≤ n ∧ n ≤ 11 then 3
  else if 12 ≤ n ∧ n ≤ 14 then 4
  else if 15 ≤ n ∧ n ≤ 16 then 5
  else if 17 ≤ n ∧ n ≤ 18 then 6
  else if n = 19 then 7
  else if 20 ≤ n then 8
  else 0

/-- The per-hole Equitable Stroke Control cap as the claim words it, for an
integer course handicap. -/
def escCap (courseHandicap : ℤ) (par : ℚ) : ℚ :=
  if courseHandicap ≤ 9 then par + 2
  else if 10 ≤ courseHandicap ∧ courseHandicap ≤ 19 then 7
  else if 20 ≤ courseHandicap ∧ courseHandicap ≤ 29 then 8
  else if 30 ≤ courseHandicap ∧ courseHandicap ≤ 39 then 9
  else 10

/-!  Helper lemmas. -/

theorem jsRound_le (x : ℚ) : (jsRound x : ℚ) ≤ x + 1 / 2 := by
  unfold jsRound
  exact Int.floor_le (x + 1 / 2)

theorem lt_jsRound (x : ℚ) : x - 1 / 2 < (jsRound x : ℚ) := by
  have h := Int.sub_one_lt_floor (x + 1 / 2)
  unfold jsRound
  linarith

unseal Rat.add Rat.sub Rat.mul Rat.inv in
theorem courseHandicap_concrete :
    calculateCourseHandicap 13 113 72 72 = 13 ∧
    calculateCourseHandicap (-3) 113 71 72 = -4 := by decide

theorem foldl_add_eq_sum {β : Type _} (f : β → ℚ) (l : List β) :
    ∀ init : ℚ, l.foldl (fun sum b => sum + f b) init = init + (l.map f).sum := by
  induction l with
  | nil => simp
  | cons a t ih => intro init; simp [ih, add_assoc]

theorem zip_map_eq_zipWith (f : ℚ → ℚ → ℚ) :
    ∀ as bs : List ℚ, (as.zip bs).map (fun sp => f sp.1 sp.2) = List.zipWith f as bs := by
  intro as
  induction as with
  | nil => intro bs; simp
  | cons a as ih =>
    intro bs
    cases bs with
    | nil => simp
    | cons b bs => simp [ih]

theorem zipWith_const_right (g : ℚ → ℚ) :
    ∀ as bs : List ℚ, as.length = bs.length →
      List.zipWith (fun s _ => g s) as bs = as.map g := by
  intro as
  induction as with
  | nil => intro bs _; simp
  | cons a as ih =>
    intro bs hb
    cases bs with
    | nil => simp at hb
    | cons b bs =>
      simp only [List.length_cons, Nat.add_right_cancel_iff] at hb
      simp [ih bs hb]

theorem length_rankAux {α : Type _} (s : α → ℚ) :
    ∀ (l : List α) (i cur : ℕ) (prev : α),
      (rankAux s i cur prev l).length = l.length := by
  intro l
  induction l with
  | nil => intro i cur prev; rfl
  | cons a t ih => intro i cur prev; simp [rankAux, ih]

theorem length_rankPositions {α : Type _} (s : α → ℚ) (l : List α) :
    (rankPositions s l).length = l.length := by
  cases l with
  | nil => rfl
  | cons a t => simp [rankPositions, length_rankAux]

theorem rankAux_get {α : Type _} (s : α → ℚ) :
    ∀ (l : List α) (prev : α) (i cur k : ℕ) (hk : k < l.length),
    (rankAux s i cur prev l).get ⟨k, by rw [length_rankAux]; exact hk⟩
      = if s (l.get ⟨k, hk⟩) = s ((prev :: l).get ⟨k, Nat.lt_succ_of_lt hk⟩)
        then (cur :: rankAux s i cur prev l).get
              ⟨k, by rw [List.length_cons, length_rankAux]; omega⟩
        else i + k + 1 := by
  intro l
  induction l with
  | nil =>
    intro prev i cur k hk
    exact absurd hk (Nat.not_lt_zero k)
  | cons a t ih =>
    intro prev i cur k hk
    cases k with
    | zero =>
      by_cases heq : s a = s prev
      · simp [rankAux, heq]
      · simp [rankAux, heq]
    | succ k =>
      have hk' : k < t.length := by simpa using Nat.lt_of_succ_lt_succ hk
      have hrec := ih a (i + 1) (if s a ≠ s prev then i + 1 else cur) k hk'
      simp only [rankAux, ne_eq, ite_not, List.get_eq_getElem,
        List.getElem_cons_succ] at hrec ⊢
      rw [hrec]
      by_cases heq : s t[k] = s (a :: t)[k]
      · rw [if_pos heq, if_pos heq]
      · rw [if_neg heq, if_neg heq]
        omega

theorem rankPositions_get_zero {α : Type _} (s : α → ℚ) (l : List α)
    (h : 0 < l.length) :
    (rankPositions s l).get ⟨0, by rw [length_rankPositions]; exact h⟩ = 1 := by
  cases l with
  | nil => exact absurd h (by simp)
  | cons a t => rfl

theorem rankPositions_get_succ {α : Type _} (s : α → ℚ) (l : List α) (k : ℕ)
    (hk : k + 1 < l.length) :
    (rankPositions s l).get ⟨k + 1, by rw [length_rankPositions]; exact hk⟩
      = if s (l.get ⟨k + 1, hk⟩) = s (l.get ⟨k, Nat.lt_of_succ_lt hk⟩)
        then (rankPositions s l).get
              ⟨k, by rw [length_rankPositions]; exact Nat.lt_of_succ_lt hk⟩
        else k + 2 := by
  cases l with
  | nil => exact absurd hk (by simp)
  | cons a t =>
    have hk' : k < t.length := by simpa using Nat.lt_of_succ_lt_succ hk
    have h := rankAux_get s t a 1 1 k hk'
    simp only [rankPositions, List.get_cons_succ]
    rw [h]
    have harith : 1 + k + 1 = k + 2 := by omega
    rw [harith]

theorem rankAux_eq_map {α : Type _} (s : α → ℚ) :
    ∀ (rest pre : List α) (a : α) (l : List α),
      l = pre ++ a :: rest →
      l.Pairwise (fun x y => s x ≤ s y) →
      rankAux s (pre.length + 1) (1 + l.countP (fun b => decide (s b < s a))) a rest
        = rest.map (fun b => 1 + l.countP (fun c => decide (s c < s b))) := by
  intro rest
  induction rest with
  | nil => intro pre a l hl hp; rfl
  | cons b rest2 ih =>
    intro pre a l hl hp
    subst hl
    have hsplit := List.pairwise_append.mp hp
    have hab : s a ≤ s b :=
      (List.pairwise_cons.mp hsplit.2.1).1 b (by simp)
    have hbrest : ∀ y ∈ rest2, s b ≤ s y :=
      (List.pairwise_cons.mp (List.pairwise_cons.mp hsplit.2.1).2).1
    have hpre : ∀ x ∈ pre, s x ≤ s a := by
      intro x hx
      exact hsplit.2.2 x hx a (by simp)
    have key : (if s b ≠ s a then pre.length + 1 + 1
          else 1 + (pre ++ a :: b :: rest2).countP (fun c => decide (s c < s a)))
        = 1 + (pre ++ a :: b :: rest2).countP (fun c => decide (s c < s b)) := by
      by_cases heq : s b = s a
      · rw [if_neg (by simpa using heq)]
        have hfun : (fun c => decide (s c < s b)) = fun c => decide (s c < s a) := by
          funext c
          rw [heq]
        rw [hfun]
      · rw [if_pos heq]
        have hlt : s a < s b := lt_of_le_of_ne hab (fun hEq => heq hEq.symm)
        have hcount : (pre ++ a :: b :: rest2).countP
            (fun c => decide (s c < s b)) = pre.length + 1 := by
          rw [List.countP_append]
          have hcpre : pre.countP (fun c => decide (s c < s b)) = pre.length := by
            rw [List.countP_eq_length]
            intro x hx
            simpa using lt_of_le_of_lt (hpre x hx) hlt
          have hctail : (b :: rest2).countP (fun c => decide (s c < s b)) = 0 := by
            rw [List.countP_eq_zero]
            intro y hy
            rcases List.mem_cons.mp hy with hyb | hyr
            · subst hyb; simp
            · simpa using not_lt.mpr (hbrest y hyr)
          rw [List.countP_cons, hctail, hcpre]
          simp [hlt]
        rw [hcount]
        omega
    have hmain := ih (pre ++ [a]) b (pre ++ a :: b :: rest2) (by simp) hp
    simp only [List.length_append, List.length_cons, List.length_nil] at hmain
    simp only [rankAux, List.map_cons]
    rw [key]
    have harith : pre.length + 0 + 1 + 1 = pre.length + 1 + 1 := by omega
    rw [harith] at hmain
    rw [hmain]

theorem rankPositions_sorted_eq {α : Type _} (s : α → ℚ) (l : List α)
    (hp : l.Pairwise (fun x y => s x ≤ s y)) :
    rankPositions s l
      = l.map (fun a => 1 + l.countP (fun b => decide (s b < s a))) := by
  cases l with
  | nil => rfl
  | cons a t =>
    have hc : (a :: t).countP (fun b => decide (s b < s a)) = 0 := by
      rw [List.countP_eq_zero]
      intro y hy
      rcases List.mem_cons.mp hy with hya | hyt
      · subst hya; simp
      · simpa using not_lt.mpr ((List.pairwise_cons.mp hp).1 y hyt)
    have hmain := rankAux_eq_map s t [] a (a :: t) rfl hp
    simp only [List.length_nil, Nat.zero_add, hc, Nat.add_zero] at hmain
    simp only [rankPositions, List.map_cons, hc, Nat.add_zero]
    rw [hmain]

theorem scoreOf_setPosition (sortBy : SortBy) (e : LeaderboardEntry) (p : ℕ) :
    scoreOf sortBy (setPosition e p) = scoreOf sortBy e := by
  cases sortBy <;> rfl

theorem position_setPosition (e : LeaderboardEntry) (p : ℕ) :
    (setPosition e p).position = p := rfl

theorem map_zipWith_eq_map_left {α β γ : Type _} (upd : α → β → α) (f : α → γ)
    (hf : ∀ a b, f (upd a b) = f a) :
    ∀ (l : List α) (ps : List β), ps.length = l.length →
      (List.zipWith upd l ps).map f = l.map f := by
  intro l
  induction l with
  | nil => intro ps h; simp
  | cons a t ih =>
    intro ps h
    cases ps with
    | nil => simp at h
    | cons p pt =>
      simp only [List.zipWith_cons_cons, List.map_cons, hf]
      rw [ih pt (by simpa using h)]

theorem map_position_zipWith :
    ∀ (l : List LeaderboardEntry) (ps : List ℕ), ps.length = l.length →
      (List.zipWith setPosition l ps).map (fun e => e.position) = ps := by
  intro l
  induction l with
  | nil =>
    intro ps h
    cases ps with
    | nil => rfl
    | cons p pt => simp at h
  | cons a t ih =>
    intro ps h
    cases ps with
    | nil => simp at h
    | cons p pt =>
      simp only [List.zipWith_cons_cons, List.map_cons, position_setPosition]
      rw [ih pt (by simpa using h)]

theorem exists_of_mem_zipWith {α β γ : Type _} {f : α → β → γ} :
    ∀ {l₁ : List α} {l₂ : List β} {x : γ}, x ∈ List.zipWith f l₁ l₂ →
      ∃ a b, a ∈ l₁ ∧ b ∈ l₂ ∧ x = f a b := by
  intro l₁
  induction l₁ with
  | nil => intro l₂ x hx; simp at hx
  | cons a t ih =>
    intro l₂ x hx
    cases l₂ with
    | nil => simp at hx
    | cons b t2 =>
      rcases List.mem_cons.mp hx with h | h
      · exact ⟨a, b, by simp, by simp, h⟩
      · rcases ih h with ⟨c, d, hc, hd, hx2⟩
        exact ⟨c, d, by simp [hc], by simp [hd], hx2⟩

theorem sortEntries_sorted (sortBy : SortBy) (entries : List LeaderboardEntry) :
    (sortEntries sortBy entries).Pairwise
      (fun a b => scoreOf sortBy a ≤ scoreOf sortBy b) := by
  haveI : IsTotal LeaderboardEntry
      (fun a b => scoreOf sortBy a ≤ scoreOf sortBy b) :=
    ⟨fun a b => le_total _ _⟩
  haveI : IsTrans LeaderboardEntry
      (fun a b => scoreOf sortBy a ≤ scoreOf sortBy b) :=
    ⟨fun a b c hab hbc => le_trans hab hbc⟩
  exact List.sorted_insertionSort _ entries

theorem sortEntries_perm (sortBy : SortBy) (entries : List LeaderboardEntry) :
    (sortEntries sortBy entries).Perm entries :=
  List.perm_insertionSort _ entries

theorem length_sortEntries (sortBy : SortBy) (entries : List LeaderboardEntry) :
    (sortEntries sortBy entries).length = entries.length :=
  (sortEntries_perm sortBy entries).length_eq

theorem length_rankEntries (sortBy : SortBy) (entries : List LeaderboardEntry) :
    (rankEntries sortBy entries).length = (sortEntries sortBy entries).length := by
  unfold rankEntries
  rw [List.length_zipWith, length_rankPositions, min_self]

theorem map_score_rankEntries (sortBy : SortBy) (entries : List LeaderboardEntry) :
    (rankEntries sortBy entries).map (scoreOf sortBy)
      = (sortEntries sortBy entries).map (scoreOf sortBy) := by
  unfold rankEntries
  exact map_zipWith_eq_map_left setPosition (scoreOf sortBy)
    (scoreOf_setPosition sortBy) _ _ (length_rankPositions _ _)

theorem map_position_rankEntries (sortBy : SortBy) (entries : List LeaderboardEntry) :
    (rankEntries sortBy entries).map (fun e => e.position)
      = rankPositions (scoreOf sortBy) (sortEntries sortBy entries) := by
  unfold rankEntries
  exact map_position_zipWith _ _ (length_rankPositions _ _)

theorem get_position_rankEntries (sortBy : SortBy) (entries : List LeaderboardEntry)
    (j : ℕ) (hj : j < (rankEntries sortBy entries).length)
    (hj2 : j < (rankPositions (scoreOf sortBy) (sortEntries sortBy entries)).length) :
    ((rankEntries sortBy entries).get ⟨j, hj⟩).position
      = (rankPositions (scoreOf sortBy) (sortEntries sortBy entries)).get ⟨j, hj2⟩ := by
  have hmp := map_position_rankEntries sortBy entries
  have e1 : ((rankEntries sortBy entries).map (fun e => e.position)).get?  j
      = some (((rankEntries sortBy entries).get ⟨j, hj⟩).position) := by
    rw [List.get?_map, List.get?_eq_get hj]
    rfl
  rw [hmp, List.get?_eq_get hj2] at e1
  exact (Option.some_inj.mp e1).symm

theorem get_score_rankEntries (sortBy : SortBy) (entries : List LeaderboardEntry)
    (j : ℕ) (hj : j < (rankEntries sortBy entries).length)
    (hj2 : j < (sortEntries sortBy entries).length) :
    scoreOf sortBy ((rankEntries sortBy entries).get ⟨j, hj⟩)
      = scoreOf sortBy ((sortEntries sortBy entries).get ⟨j, hj2⟩) := by
  have hms := map_score_rankEntries sortBy entries
  have e1 : ((rankEntries sortBy entries).map (scoreOf sortBy)).get? j
      = some (scoreOf sortBy ((rankEntries sortBy entries).get ⟨j, hj⟩)) := by
    rw [List.get?_map, List.get?_eq_get hj]
    rfl
  have e2 : ((sortEntries sortBy entries).map (scoreOf sortBy)).get? j
      = some (scoreOf sortBy ((sortEntries sortBy entries).get ⟨j, hj2⟩)) := by
    rw [List.get?_map, List.get?_eq_get hj2]
    rfl
  rw [hms, e2] at e1
  exact (Option.some_inj.mp e1).symm

/-- The event scores of the specification example: 68, 70, 70 and 71. -/
def eventExampleRounds : List RoundRow :=
  [{ id := "r1", userId := "u1", totalScore := 70, courseHandicap := none,
     user := { firstName := "A", lastName := "One", currentHandicapIndex := none } },
   { id := "r2", userId := "u2", totalScore := 68, courseHandicap := none,
     user := { firstName := "B", lastName := "Two", currentHandicapIndex := none } },
   { id := "r3", userId := "u3", totalScore := 71, courseHandicap := none,
     user := { firstName := "C", lastName := "Three", currentHandicapIndex := none } },
   { id := "r4", userId := "u4", totalScore := 70, courseHandicap := none,
     user := { firstName := "D", lastName := "Four", currentHandicapIndex := none } }]

unseal Rat.add Rat.sub Rat.mul Rat.inv in
theorem eventExample_positions :
    (computeEventLeaderboard eventExampleRounds SortBy.gross).map (fun e => e.position)
      = [1, 2, 2, 4] := by decide

set_option maxHeartbeats 1000000 in
theorem numberOfDifferentialsToUse_eq_claim (n : ℕ) (h : 5 ≤ n) :
    numberOfDifferentialsToUse n = claimRoundCountTable n := by
  unfold numberOfDifferentialsToUse claimRoundCountTable
  split_ifs <;> omega

theorem numberOfDifferentialsToUse_le (n : ℕ) :
    numberOfDifferentialsToUse n ≤ max n 5 ∧ numberOfDifferentialsToUse n ≤ 20 := by
  unfold numberOfDifferentialsToUse
  split_ifs <;> omega

theorem sortedDifferentials_perm (l : List ScoreDifferentialData) :
    (sortedDifferentials l).Perm
      ((recentRounds l).map (fun r => (r, diffOf r))) :=
  List.perm_insertionSort _ _

theorem sortedDifferentials_pairwise (l : List ScoreDifferentialData) :
    (sortedDifferentials l).Pairwise (fun a b => a.2 ≤ b.2) := by
  haveI : IsTotal (ScoreDifferentialData × ℚ) (fun a b => a.2 ≤ b.2) :=
    ⟨fun a b => le_total _ _⟩
  haveI : IsTrans (ScoreDifferentialData × ℚ) (fun a b => a.2 ≤ b.2) :=
    ⟨fun a b c hab hbc => le_trans hab hbc⟩
  exact List.sorted_insertionSort _ _

theorem sortedDifferentials_snd (l : List ScoreDifferentialData) :
    ∀ d ∈ sortedDifferentials l, d.2 = diffOf d.1 := by
  intro d hd
  have hmem : d ∈ (recentRounds l).map (fun r => (r, diffOf r)) :=
    (sortedDifferentials_perm l).mem_iff.mp hd
  rcases List.mem_map.mp hmem with ⟨r, _, rfl⟩
  rfl

theorem length_sortedDifferentials (l : List ScoreDifferentialData) :
    (sortedDifferentials l).length = min 20 l.length := by
  rw [(sortedDifferentials_perm l).length_eq, List.length_map]
  unfold recentRounds
  rw [List.length_take, (List.perm_insertionSort _ l).length_eq]

/-- The rounds of one user inside a fetched batch. -/
def userRounds (rounds : List RoundRow) (uid : String) : List RoundRow :=
  rounds.filter (fun r => r.userId = uid)

/-- What one aggregation record must say about the processed history. -/
def aggStats (hist : List RoundRow) (u : UserAgg) : Prop :=
  userRounds hist u.userId ≠ [] ∧
  u.totalGross = ((userRounds hist u.userId).map (fun r => r.totalScore)).sum ∧
  u.totalNet
    = ((userRounds hist u.userId).map
        (fun r => calculateNetScore r.totalScore (r.courseHandicap.getD 0))).sum ∧
  u.roundCount = (userRounds hist u.userId).length

theorem userRounds_append_single (hist : List RoundRow) (r : RoundRow)
    (uid : String) :
    userRounds (hist ++ [r]) uid
      = userRounds hist uid ++ (if r.userId = uid then [r] else []) := by
  unfold userRounds
  rw [List.filter_append]
  by_cases hr : r.userId = uid <;> simp [hr]

theorem addRound_stats (hist : List RoundRow) (acc : List UserAgg) (r : RoundRow)
    (hstats : ∀ u ∈ acc, aggStats hist u)
    (hids : ∀ uid, (∃ u ∈ acc, u.userId = uid) ↔ (∃ x ∈ hist, x.userId = uid)) :
    ∀ v ∈ addRound acc r, aggStats (hist ++ [r]) v := by
  intro v hv
  unfold addRound at hv
  by_cases hcase : acc.any (fun u => u.userId = r.userId)
  · rw [if_pos hcase] at hv
    rcases List.mem_map.mp hv with ⟨u0, hu0, rfl⟩
    have hs := hstats u0 hu0
    by_cases hmatch : u0.userId = r.userId
    · rw [if_pos hmatch]
      unfold aggStats at hs ⊢
      have hur : userRounds (hist ++ [r]) u0.userId
          = userRounds hist u0.userId ++ [r] := by
        rw [userRounds_append_single, if_pos hmatch.symm]
      refine ⟨by simp [hur], ?_, ?_, ?_⟩
      · simp only [hur, List.map_append, List.sum_append, List.map_cons,
          List.map_nil, List.sum_cons, List.sum_nil]
        rw [hs.2.1]
        ring
      · simp only [hur, List.map_append, List.sum_append, List.map_cons,
          List.map_nil, List.sum_cons, List.sum_nil]
        rw [hs.2.2.1]
        ring
      · simp only [hur, List.length_append, List.length_cons, List.length_nil]
        omega
    · rw [if_neg hmatch]
      unfold aggStats at hs ⊢
      have hur : userRounds (hist ++ [r]) u0.userId = userRounds hist u0.userId := by
        rw [userRounds_append_single,
          if_neg (fun hEq => hmatch hEq.symm)]
        simp
      rw [hur]
      exact hs
  · rw [if_neg hcase] at hv
    rcases List.mem_append.mp hv with hacc | hnew
    · have hs := hstats v hacc
      have hne : ¬ v.userId = r.userId := by
        intro hEq
        exact hcase (List.any_eq_true.mpr ⟨v, hacc, by simpa using hEq⟩)
      unfold aggStats at hs ⊢
      have hur : userRounds (hist ++ [r]) v.userId = userRounds hist v.userId := by
        rw [userRounds_append_single, if_neg (fun hEq => hne hEq.symm)]
        simp
      rw [hur]
      exact hs
    · have hv2 := List.mem_singleton.mp hnew
      have hnone : userRounds hist r.userId = [] := by
        unfold userRounds
        rw [List.filter_eq_nil_iff]
        intro x hx
        simp only [decide_eq_true_eq]
        intro hEq
        have : ∃ u ∈ acc, u.userId = r.userId := (hids r.userId).mpr ⟨x, hx, hEq⟩
        rcases this with ⟨u1, hu1, hu1eq⟩
        exact hcase (List.any_eq_true.mpr ⟨u1, hu1, by simpa using hu1eq⟩)
      subst hv2
      unfold aggStats
      dsimp only
      have hur : userRounds (hist ++ [r]) r.userId = [r] := by
        rw [userRounds_append_single, if_pos rfl, hnone]
        rfl
      rw [hur]
      refine ⟨by simp, by simp, by simp, by simp⟩

theorem addRound_ids (hist : List RoundRow) (acc : List UserAgg) (r : RoundRow)
    (hids : ∀ uid, (∃ u ∈ acc, u.userId = uid) ↔ (∃ x ∈ hist, x.userId = uid)) :
    ∀ uid, (∃ v ∈ addRound acc r, v.userId = uid)
      ↔ (∃ x ∈ hist ++ [r], x.userId = uid) := by
  intro uid
  unfold addRound
  by_cases hcase : acc.any (fun u => u.userId = r.userId)
  · rw [if_pos hcase]
    constructor
    · intro hex
      rcases hex with ⟨v, hv, hveq⟩
      rcases List.mem_map.mp hv with ⟨u0, hu0, rfl⟩
      have huid : u0.userId = uid := by
        by_cases hmatch : u0.userId = r.userId <;>
          simpa [hmatch] using hveq
      rcases (hids uid).mp ⟨u0, hu0, huid⟩ with ⟨x, hx, hxeq⟩
      exact ⟨x, List.mem_append_left _ hx, hxeq⟩
    · intro hex
      rcases hex with ⟨x, hx, hxeq⟩
      rcases List.mem_append.mp hx with hxh | hxr
      · rcases (hids uid).mpr ⟨x, hxh, hxeq⟩ with ⟨u0, hu0, hueq⟩
        refine ⟨_, List.mem_map.mpr ⟨u0, hu0, rfl⟩, ?_⟩
        by_cases hmatch : u0.userId = r.userId <;> simpa [hmatch] using hueq
      · have hxr2 : x = r := by simpa using hxr
        rcases List.any_eq_true.mp hcase with ⟨u0, hu0, hueq⟩
        have hueq2 : u0.userId = r.userId := by simpa using hueq
        refine ⟨_, List.mem_map.mpr ⟨u0, hu0, rfl⟩, ?_⟩
        rw [if_pos hueq2]
        show u0.userId = uid
        rw [hueq2, ← hxr2]
        exact hxeq
  · rw [if_neg hcase]
    constructor
    · intro hex
      rcases hex with ⟨v, hv, hveq⟩
      rcases List.mem_append.mp hv with hacc | hnew
      · rcases (hids uid).mp ⟨v, hacc, hveq⟩ with ⟨x, hxh, hxeq⟩
        exact ⟨x, List.mem_append_left _ hxh, hxeq⟩
      · have hv2 := List.mem_singleton.mp hnew
        subst hv2
        exact ⟨r, List.mem_append_right _ (by simp), hveq⟩
    · intro hex
      rcases hex with ⟨x, hx, hxeq⟩
      rcases List.mem_append.mp hx with hxh | hxr
      · rcases (hids uid).mpr ⟨x, hxh, hxeq⟩ with ⟨u0, hu0, hueq⟩
        exact ⟨u0, List.mem_append_left _ hu0, hueq⟩
      · have hxr2 : x = r := by simpa using hxr
        subst hxr2
        refine ⟨_, List.mem_append_right _ (List.mem_singleton.mpr rfl), ?_⟩
        exact hxeq

theorem aggregate_invariant :
    ∀ (rest hist : List RoundRow) (acc : List UserAgg),
      (∀ u ∈ acc, aggStats hist u) →
      (∀ uid, (∃ u ∈ acc, u.userId = uid) ↔ (∃ x ∈ hist, x.userId = uid)) →
      ∀ u ∈ rest.foldl addRound acc, aggStats (hist ++ rest) u := by
  intro rest
  induction rest with
  | nil =>
    intro hist acc hstats _ u hu
    simpa using hstats u (by simpa using hu)
  | cons r rest2 ih =>
    intro hist acc hstats hids u hu
    have hstep := ih (hist ++ [r]) (addRound acc r)
      (addRound_stats hist acc r hstats hids)
      (addRound_ids hist acc r hids)
    have hu2 : u ∈ rest2.foldl addRound (addRound acc r) := by
      simpa using hu
    have := hstep u hu2
    simpa [List.append_assoc] using this

theorem aggregateRounds_spec (rounds : List RoundRow) :
    ∀ u ∈ aggregateRounds rounds, aggStats rounds u := by
  intro u hu
  have := aggregate_invariant rounds [] [] (by intro u hu; simp at hu)
    (by intro uid; simp) u (by simpa [aggregateRounds] using hu)
  simpa using this

/-- The five-round history of the end-to-end scenario in the specification. -/
def fiveRoundHistory : List ScoreDifferentialData :=
  [⟨90, 72, 113, 1⟩, ⟨88, 72, 113, 2⟩, ⟨85, 72, 113, 3⟩,
   ⟨92, 72, 113, 4⟩, ⟨87, 72, 113, 5⟩]

/-!  Claim theorems. -/

/-- Claim C6: calculateHandicapIndex returns null exactly when fewer than 5
differential records are supplied; in particular it is non-null for every list
of at least 5 records, hence for exactly 5. -/
theorem handicapIndex_none_iff (l : List ScoreDifferentialData) :
    calculateHandicapIndex l = none ↔ l.length < 5 := by
  unfold calculateHandicapIndex
  split_ifs with h
  · simp [h]
  · simp [h]

/-- Claim C7: calculateAdjustedGrossScore fails with the invalid-input error
if and only if the hole-scores and hole-pars arrays differ in length; in the
model the error is the synchronous Except result, never recovered. -/
theorem adjustedGross_error_iff (holeScores holePars : List ℚ)
    (courseHandicap : ℚ) :
    calculateAdjustedGrossScore holeScores holePars courseHandicap
        = Except.error "Hole scores and pars arrays must have the same length"
      ↔ holeScores.length ≠ holePars.length := by
  unfold calculateAdjustedGrossScore
  split_ifs with h1 h2 <;> simp [h1]

unseal Rat.add Rat.sub Rat.mul Rat.inv in
/-- Claim C4, counterexample: at handicapIndex -5/2 on a slope-113 course with
courseRating 72 and par 72 the formula value is -5/2; the code (Math.round)
returns -2, while round-half-away-from-zero gives -3, so the claim as stated
fails. -/
theorem courseHandicap_not_halfAwayFromZero :
    calculateCourseHandicap (-5 / 2) 113 72 72
      ≠ roundHalfAwayFromZero ((-5 / 2) * ((113 : ℚ) / 113) + ((72 : ℚ) - 72)) := by
  decide

/-- Claim C4, amended: calculateCourseHandicap returns the formula value
handicapIndex * (slopeRating / 113) + (courseRating - par) rounded to the
nearest integer with ties toward positive infinity (JavaScript Math.round,
the floor of the value plus one half), with no bounds clamping, so negative
results are permitted; the specification scenario gives 13. -/
theorem courseHandicap_formula (handicapIndex slopeRating courseRating par : ℚ) :
    calculateCourseHandicap handicapIndex slopeRating courseRating par
        = ⌊handicapIndex * (slopeRating / 113) + (courseRating - par) + 1 / 2⌋ ∧
    handicapIndex * (slopeRating / 113) + (courseRating - par) - 1 / 2
        < (calculateCourseHandicap handicapIndex slopeRating courseRating par : ℚ) ∧
    (calculateCourseHandicap handicapIndex slopeRating courseRating par : ℚ)
        ≤ handicapIndex * (slopeRating / 113) + (courseRating - par) + 1 / 2 ∧
    calculateCourseHandicap 13 113 72 72 = 13 ∧
    calculateCourseHandicap (-3) 113 71 72 = -4 := by
  refine ⟨rfl, ?_, ?_, courseHandicap_concrete.1, courseHandicap_concrete.2⟩
  · exact lt_jsRound _
  · exact jsRound_le _

/-- Claim C3: on equal-length arrays, calculateAdjustedGrossScore is the sum
over all holes of min(actualStrokes, cap), with the cap given by the
claim's Equitable Stroke Control table for an integer course handicap. -/
theorem adjustedGross_esc (courseHandicap : ℤ) (holeScores holePars : List ℚ)
    (h : holeScores.length = holePars.length) :
    calculateAdjustedGrossScore holeScores holePars (courseHandicap : ℚ)
      = Except.ok
          ((List.zipWith (fun s p => min s (escCap courseHandicap p))
            holeScores holePars).sum) := by
  unfold calculateAdjustedGrossScore
  rw [if_neg (by simp [h])]
  by_cases h9 : courseHandicap ≤ 9
  · rw [if_pos (by exact_mod_cast h9)]
    rw [foldl_add_eq_sum, zero_add,
      zip_map_eq_zipWith (fun s p => min s (p + 2)) holeScores holePars]
    have hcap : (fun s p => min s (escCap courseHandicap p))
        = fun s p => min s (p + 2) := by
      funext s p
      rw [escCap, if_pos h9]
    rw [hcap]
  · rw [if_neg (by exact_mod_cast h9)]
    by_cases h19 : courseHandicap ≤ 19
    · have hcap : (fun s p => min s (escCap courseHandicap p))
          = fun s p => min s 7 := by
        funext s p
        rw [escCap, if_neg h9, if_pos (by omega)]
      simp only [if_pos ((by exact_mod_cast h19 : (courseHandicap : ℚ) ≤ 19))]
      rw [foldl_add_eq_sum, zero_add, hcap,
        zipWith_const_right (fun s => min s 7) holeScores holePars h]
    · by_cases h29 : courseHandicap ≤ 29
      · have hcap : (fun s p => min s (escCap courseHandicap p))
            = fun s p => min s 8 := by
          funext s p
          rw [escCap, if_neg h9, if_neg (by omega), if_pos (by omega)]
        simp only [if_neg ((by exact_mod_cast h19 : ¬(courseHandicap : ℚ) ≤ 19)),
          if_pos ((by exact_mod_cast h29 : (courseHandicap : ℚ) ≤ 29))]
        rw [foldl_add_eq_sum, zero_add, hcap,
          zipWith_const_right (fun s => min s 8) holeScores holePars h]
      · by_cases h39 : courseHandicap ≤ 39
        · have hcap : (fun s p => min s (escCap courseHandicap p))
              = fun s p => min s 9 := by
            funext s p
            rw [escCap, if_neg h9, if_neg (by omega), if_neg (by omega),
              if_pos (by omega)]
          simp only [if_neg ((by exact_mod_cast h19 : ¬(courseHandicap : ℚ) ≤ 19)),
            if_neg ((by exact_mod_cast h29 : ¬(courseHandicap : ℚ) ≤ 29)),
            if_pos ((by exact_mod_cast h39 : (courseHandicap : ℚ) ≤ 39))]
          rw [foldl_add_eq_sum, zero_add, hcap,
            zipWith_const_right (fun s => min s 9) holeScores holePars h]
        · have hcap : (fun s p => min s (escCap courseHandicap p))
              = fun s p => min s 10 := by
            funext s p
            rw [escCap, if_neg h9, if_neg (by omega), if_neg (by omega),
              if_neg (by omega)]
          simp only [if_neg ((by exact_mod_cast h19 : ¬(courseHandicap : ℚ) ≤ 19)),
            if_neg ((by exact_mod_cast h29 : ¬(courseHandicap : ℚ) ≤ 29)),
            if_neg ((by exact_mod_cast h39 : ¬(courseHandicap : ℚ) ≤ 39))]
          rw [foldl_add_eq_sum, zero_add, hcap,
            zipWith_const_right (fun s => min s 10) holeScores holePars h]

/-- Claim C10: on a list already sorted ascending by the chosen score, the
shared position-assignment loop (rankPositions, used by the event, season and
team leaderboards) gives every entry the position 1 plus the number of
entries with a strictly lower score — standard competition ranking — so
positions start at 1 and are nondecreasing along the list. -/
theorem rankLoop_standard_competition {α : Type _} (s : α → ℚ) (l : List α)
    (hs : (l.map s).Sorted (· ≤ ·)) :
    rankPositions s l
        = l.map (fun a => 1 + l.countP (fun b => decide (s b < s a))) ∧
    (rankPositions s l).Sorted (· ≤ ·) ∧
    (l ≠ [] → (rankPositions s l).head? = some 1) := by
  have hp : l.Pairwise (fun x y => s x ≤ s y) := List.pairwise_map.mp hs
  refine ⟨rankPositions_sorted_eq s l hp, ?_, ?_⟩
  · rw [rankPositions_sorted_eq s l hp]
    rw [List.Sorted, List.pairwise_map]
    refine hp.imp ?_
    intro x y hxy
    have : l.countP (fun b => decide (s b < s x))
        ≤ l.countP (fun b => decide (s b < s y)) := by
      apply List.countP_mono_left
      intro c _ hc
      simp only [decide_eq_true_eq] at hc ⊢
      exact lt_of_lt_of_le hc hxy
    omega
  · intro hne
    cases l with
    | nil => exact absurd rfl hne
    | cons a t => rfl

/-- Claim C1: for at least 5 records, calculateHandicapIndex returns a result
whose numberOfScoresUsed is given by the claim round-count table, whose
scoresUsed are exactly N records drawn from the 20 most recent records
(sorted by playedDate descending) whose differentials are lowest — every
retained differential is at most every discarded one — and whose handicap
index is the average of those N differentials rounded to one decimal place
with no 0.96 multiplier. -/
theorem handicapIndex_best_average (l : List ScoreDifferentialData)
    (h : 5 ≤ l.length) :
    ∃ r, calculateHandicapIndex l = some r ∧
      r.numberOfScoresUsed = claimRoundCountTable l.length ∧
      r.scoresUsed.length = r.numberOfScoresUsed ∧
      (∃ rest, (recentRounds l).Perm (r.scoresUsed ++ rest) ∧
        ∀ a ∈ r.scoresUsed, ∀ b ∈ rest, diffOf a ≤ diffOf b) ∧
      r.averageDifferential
        = (r.scoresUsed.map diffOf).sum / (r.numberOfScoresUsed : ℚ) ∧
      r.handicapIndex = round1 r.averageDifferential := by
  have hnot : ¬ l.length < 5 := by omega
  have hnle : numberOfDifferentialsToUse l.length
      ≤ (sortedDifferentials l).length := by
    rw [length_sortedDifferentials]
    have hb := numberOfDifferentialsToUse_le l.length
    omega
  have heq : calculateHandicapIndex l
      = some
        { handicapIndex :=
            round1
              ((((sortedDifferentials l).take
                  (numberOfDifferentialsToUse l.length)).map (fun d => d.2)).sum
                / (numberOfDifferentialsToUse l.length : ℚ))
          numberOfScoresUsed := numberOfDifferentialsToUse l.length
          scoresUsed :=
            ((sortedDifferentials l).take
              (numberOfDifferentialsToUse l.length)).map (fun d => d.1)
          averageDifferential :=
            (((sortedDifferentials l).take
                (numberOfDifferentialsToUse l.length)).map (fun d => d.2)).sum
              / (numberOfDifferentialsToUse l.length : ℚ) } := by
    rw [calculateHandicapIndex, if_neg hnot]
  have hmemtake : ∀ d ∈ (sortedDifferentials l).take
      (numberOfDifferentialsToUse l.length), d ∈ sortedDifferentials l := by
    intro d hd
    rw [← List.take_append_drop (numberOfDifferentialsToUse l.length)
      (sortedDifferentials l)]
    exact List.mem_append_left _ hd
  refine ⟨_, heq, numberOfDifferentialsToUse_eq_claim l.length h, ?_, ?_, ?_, rfl⟩
  · show (((sortedDifferentials l).take
        (numberOfDifferentialsToUse l.length)).map (fun d => d.1)).length
      = numberOfDifferentialsToUse l.length
    rw [List.length_map, List.length_take]
    omega
  · refine ⟨((sortedDifferentials l).drop
      (numberOfDifferentialsToUse l.length)).map (fun d => d.1), ?_, ?_⟩
    · have h1 : (((sortedDifferentials l).take
            (numberOfDifferentialsToUse l.length)).map (fun d => d.1))
          ++ (((sortedDifferentials l).drop
            (numberOfDifferentialsToUse l.length)).map (fun d => d.1))
          = (sortedDifferentials l).map (fun d => d.1) := by
        rw [← List.map_append, List.take_append_drop]
      have h2 : ((sortedDifferentials l).map (fun d => d.1)).Perm
          (((recentRounds l).map (fun r => (r, diffOf r))).map (fun d => d.1)) :=
        (sortedDifferentials_perm l).map _
      have h3 : ((recentRounds l).map (fun r => (r, diffOf r))).map (fun d => d.1)
          = recentRounds l := by
        rw [List.map_map]
        exact (List.map_congr_left fun r _ => rfl).trans (List.map_id _)
      rw [h3] at h2
      rw [h1]
      exact h2.symm
    · intro a ha b hb
      rcases List.mem_map.mp ha with ⟨d, hd, rfl⟩
      rcases List.mem_map.mp hb with ⟨e, he, rfl⟩
      have hds : d ∈ sortedDifferentials l := hmemtake d hd
      have hes : e ∈ sortedDifferentials l := by
        rw [← List.take_append_drop (numberOfDifferentialsToUse l.length)
          (sortedDifferentials l)]
        exact List.mem_append_right _ he
      have hsort2 : ((sortedDifferentials l).take
            (numberOfDifferentialsToUse l.length)
          ++ (sortedDifferentials l).drop
            (numberOfDifferentialsToUse l.length)).Pairwise
          (fun a b => a.2 ≤ b.2) := by
        rw [List.take_append_drop]
        exact sortedDifferentials_pairwise l
      have hle := (List.pairwise_append.mp hsort2).2.2 d hd e he
      rw [← sortedDifferentials_snd l d hds, ← sortedDifferentials_snd l e hes]
      exact hle
  · show (((sortedDifferentials l).take
        (numberOfDifferentialsToUse l.length)).map (fun d => d.2)).sum
        / (numberOfDifferentialsToUse l.length : ℚ) = _
    have hmap : ((((sortedDifferentials l).take
          (numberOfDifferentialsToUse l.length)).map (fun d => d.1)).map diffOf)
        = ((sortedDifferentials l).take
            (numberOfDifferentialsToUse l.length)).map (fun d => d.2) := by
      rw [List.map_map]
      apply List.map_congr_left
      intro d hd
      exact (sortedDifferentials_snd l d (hmemtake d hd)).symm
    rw [hmap]

theorem handicapIndex_best_average_witness :
    ∃ r, calculateHandicapIndex fiveRoundHistory = some r ∧
      r.numberOfScoresUsed = claimRoundCountTable fiveRoundHistory.length ∧
      r.scoresUsed.length = r.numberOfScoresUsed ∧
      (∃ rest, (recentRounds fiveRoundHistory).Perm (r.scoresUsed ++ rest) ∧
        ∀ a ∈ r.scoresUsed, ∀ b ∈ rest, diffOf a ≤ diffOf b) ∧
      r.averageDifferential
        = (r.scoresUsed.map diffOf).sum / (r.numberOfScoresUsed : ℚ) ∧
      r.handicapIndex = round1 r.averageDifferential :=
  handicapIndex_best_average fiveRoundHistory (by decide)

/-- Claim C5: computeSeasonStandings reduces each player to the rounded
average of the gross and net scores of their rounds, carrying the round count
as thru; positions are assigned by the shared sort-and-rank step on the full
aggregated set; the output is that full ranking truncated to limit entries
afterwards, so every returned entry appears, with its position, in the full
ranking. -/
theorem seasonStandings_avg_rank_truncate (rounds : List RoundRow)
    (sortBy : SortBy) (limit : ℕ) :
    computeSeasonStandings rounds sortBy limit
        = (seasonRanked rounds sortBy).take limit ∧
    seasonRanked rounds sortBy
        = rankEntries sortBy ((aggregateRounds rounds).map seasonEntry) ∧
    (∀ e ∈ seasonRanked rounds sortBy,
      userRounds rounds e.userId ≠ [] ∧
      e.grossScore
        = (jsRound (((userRounds rounds e.userId).map (fun r => r.totalScore)).sum
            / ((userRounds rounds e.userId).length : ℚ)) : ℚ) ∧
      e.netScore
        = (jsRound (((userRounds rounds e.userId).map
              (fun r => calculateNetScore r.totalScore (r.courseHandicap.getD 0))).sum
            / ((userRounds rounds e.userId).length : ℚ)) : ℚ) ∧
      e.thru = some (userRounds rounds e.userId).length) ∧
    (∀ e ∈ computeSeasonStandings rounds sortBy limit,
      e ∈ seasonRanked rounds sortBy) := by
  refine ⟨rfl, rfl, ?_, ?_⟩
  · intro e he
    have he2 : e ∈ List.zipWith setPosition
        (sortEntries sortBy ((aggregateRounds rounds).map seasonEntry))
        (rankPositions (scoreOf sortBy)
          (sortEntries sortBy ((aggregateRounds rounds).map seasonEntry))) := he
    rcases exists_of_mem_zipWith he2 with ⟨e0, p, he0, hp, heq⟩
    have he0e : e0 ∈ (aggregateRounds rounds).map seasonEntry :=
      (sortEntries_perm sortBy _).mem_iff.mp he0
    rcases List.mem_map.mp he0e with ⟨u, hu, hue⟩
    obtain ⟨hne, hg, hn2, hc⟩ := aggregateRounds_spec rounds u hu
    subst heq
    subst hue
    have hid : (setPosition (seasonEntry u) p).userId = u.userId := rfl
    rw [hid]
    refine ⟨hne, ?_, ?_, ?_⟩
    · show (jsRound (u.totalGross / (u.roundCount : ℚ)) : ℚ) = _
      rw [hg, hc]
    · show (jsRound (u.totalNet / (u.roundCount : ℚ)) : ℚ) = _
      rw [hn2, hc]
    · show some u.roundCount = _
      rw [hc]
  · intro e he
    have he2 : e ∈ (seasonRanked rounds sortBy).take limit := he
    rw [← List.take_append_drop limit (seasonRanked rounds sortBy)]
    exact List.mem_append_left _ he2

/-- The season example of the specification: one player with rounds 80 and 82,
another with rounds 78, 79 and 80. -/
def seasonExampleRounds : List RoundRow :=
  [{ id := "s1", userId := "p1", totalScore := 80, courseHandicap := none,
     user := { firstName := "P", lastName := "One", currentHandicapIndex := none } },
   { id := "s2", userId := "p1", totalScore := 82, courseHandicap := none,
     user := { firstName := "P", lastName := "One", currentHandicapIndex := none } },
   { id := "s3", userId := "p2", totalScore := 78, courseHandicap := none,
     user := { firstName := "P", lastName := "Two", currentHandicapIndex := none } },
   { id := "s4", userId := "p2", totalScore := 79, courseHandicap := none,
     user := { firstName := "P", lastName := "Two", currentHandicapIndex := none } },
   { id := "s5", userId := "p2", totalScore := 80, courseHandicap := none,
     user := { firstName := "P", lastName := "Two", currentHandicapIndex := none } }]

unseal Rat.add Rat.sub Rat.mul Rat.inv in
theorem seasonStandings_avg_rank_truncate_witness :
    (userRounds seasonExampleRounds
        ((seasonRanked seasonExampleRounds SortBy.net).get ⟨0, by decide⟩).userId
      ≠ [] ∧
    ((seasonRanked seasonExampleRounds SortBy.net).get ⟨0, by decide⟩).grossScore
      = (jsRound (((userRounds seasonExampleRounds
            ((seasonRanked seasonExampleRounds SortBy.net).get
              ⟨0, by decide⟩).userId).map (fun r => r.totalScore)).sum
          / ((userRounds seasonExampleRounds
              ((seasonRanked seasonExampleRounds SortBy.net).get
                ⟨0, by decide⟩).userId).length : ℚ)) : ℚ) ∧
    ((seasonRanked seasonExampleRounds SortBy.net).get ⟨0, by decide⟩).netScore
      = (jsRound (((userRounds seasonExampleRounds
            ((seasonRanked seasonExampleRounds SortBy.net).get
              ⟨0, by decide⟩).userId).map
              (fun r => calculateNetScore r.totalScore (r.courseHandicap.getD 0))).sum
          / ((userRounds seasonExampleRounds
              ((seasonRanked seasonExampleRounds SortBy.net).get
                ⟨0, by decide⟩).userId).length : ℚ)) : ℚ) ∧
    ((seasonRanked seasonExampleRounds SortBy.net).get ⟨0, by decide⟩).thru
      = some (userRounds seasonExampleRounds
          ((seasonRanked seasonExampleRounds SortBy.net).get
            ⟨0, by decide⟩).userId).length) ∧
    ((computeSeasonStandings seasonExampleRounds SortBy.net 50).get
        ⟨0, by decide⟩) ∈ seasonRanked seasonExampleRounds SortBy.net :=
  ⟨(seasonStandings_avg_rank_truncate seasonExampleRounds SortBy.net 50).2.2.1
      ((seasonRanked seasonExampleRounds SortBy.net).get ⟨0, by decide⟩)
      (List.get_mem _ _ _),
   (seasonStandings_avg_rank_truncate seasonExampleRounds SortBy.net 50).2.2.2
      ((computeSeasonStandings seasonExampleRounds SortBy.net 50).get
        ⟨0, by decide⟩)
      (List.get_mem _ _ _)⟩

/-- Claim C2: computeEventLeaderboard returns entries sorted ascending by the
chosen (gross or net) score; an entry whose score equals the immediately
preceding entry's score receives that entry's position, and one with a
strictly different (hence, by sortedness, strictly worse) score receives
position index + 1 (1-based); for event scores 68, 70, 70, 71 the positions
are 1, 2, 2, 4. -/
theorem eventLeaderboard_order_and_ties (rounds : List RoundRow) (sortBy : SortBy) :
    ((computeEventLeaderboard rounds sortBy).map (scoreOf sortBy)).Sorted (· ≤ ·) ∧
    (∀ h0 : 0 < (computeEventLeaderboard rounds sortBy).length,
      ((computeEventLeaderboard rounds sortBy).get ⟨0, h0⟩).position = 1) ∧
    (∀ (i : ℕ) (hi : i + 1 < (computeEventLeaderboard rounds sortBy).length),
      ((computeEventLeaderboard rounds sortBy).get ⟨i + 1, hi⟩).position
        = if scoreOf sortBy ((computeEventLeaderboard rounds sortBy).get ⟨i + 1, hi⟩)
              = scoreOf sortBy
                  ((computeEventLeaderboard rounds sortBy).get ⟨i, Nat.lt_of_succ_lt hi⟩)
          then ((computeEventLeaderboard rounds sortBy).get
                  ⟨i, Nat.lt_of_succ_lt hi⟩).position
          else i + 2) ∧
    (computeEventLeaderboard eventExampleRounds SortBy.gross).map (fun e => e.position)
      = [1, 2, 2, 4] := by
  simp only [computeEventLeaderboard]
  refine ⟨?_, ?_, ?_, eventExample_positions⟩
  · rw [map_score_rankEntries]
    exact List.pairwise_map.mpr (sortEntries_sorted sortBy _)
  · intro h0
    have hlen := length_rankEntries sortBy (rounds.map mkEventEntry)
    have hlp := length_rankPositions (scoreOf sortBy)
      (sortEntries sortBy (rounds.map mkEventEntry))
    rw [get_position_rankEntries sortBy (rounds.map mkEventEntry) 0 h0 (by omega)]
    exact rankPositions_get_zero _ _ (by omega)
  · intro i hi
    have hlen := length_rankEntries sortBy (rounds.map mkEventEntry)
    have hlp := length_rankPositions (scoreOf sortBy)
      (sortEntries sortBy (rounds.map mkEventEntry))
    have hiS : i + 1 < (sortEntries sortBy (rounds.map mkEventEntry)).length := by
      omega
    rw [get_position_rankEntries sortBy (rounds.map mkEventEntry) (i + 1) hi (by omega),
      get_position_rankEntries sortBy (rounds.map mkEventEntry) i
        (Nat.lt_of_succ_lt hi) (by omega),
      get_score_rankEntries sortBy (rounds.map mkEventEntry) (i + 1) hi (by omega),
      get_score_rankEntries sortBy (rounds.map mkEventEntry) i
        (Nat.lt_of_succ_lt hi) (by omega)]
    exact rankPositions_get_succ (scoreOf sortBy) _ i hiS

unseal Rat.add Rat.sub Rat.mul Rat.inv in
theorem eventLeaderboard_order_and_ties_witness :
    ((computeEventLeaderboard eventExampleRounds SortBy.gross).get
          ⟨0, by decide⟩).position = 1 ∧
    ((computeEventLeaderboard eventExampleRounds SortBy.gross).get
          ⟨1, by decide⟩).position
      = if scoreOf SortBy.gross
              ((computeEventLeaderboard eventExampleRounds SortBy.gross).get
                ⟨1, by decide⟩)
            = scoreOf SortBy.gross
                ((computeEventLeaderboard eventExampleRounds SortBy.gross).get
                  ⟨0, by decide⟩)
        then ((computeEventLeaderboard eventExampleRounds SortBy.gross).get
                ⟨0, by decide⟩).position
        else 2 :=
  ⟨(eventLeaderboard_order_and_ties eventExampleRounds SortBy.gross).2.1 (by decide),
   (eventLeaderboard_order_and_ties eventExampleRounds SortBy.gross).2.2.1 0 (by decide)⟩

/-- Claim C8: in both the event leaderboard and the season aggregation a
round with a missing course handicap is tolerated by substituting 0: every
event entry comes from a round with grossScore the round total, courseHandicap
the stored value or 0 when absent, and netScore equal to gross minus that
courseHandicap; the season totals sum the same net scores; no failure can
occur, the computations being total. -/
theorem missing_handicap_defaults_zero (rounds : List RoundRow) (sortBy : SortBy) :
    (∀ g c : ℚ, calculateNetScore g c = g - c) ∧
    (∀ e ∈ computeEventLeaderboard rounds sortBy,
      ∃ r ∈ rounds, e.grossScore = r.totalScore ∧
        e.courseHandicap = r.courseHandicap.getD 0 ∧
        e.netScore = calculateNetScore r.totalScore (r.courseHandicap.getD 0) ∧
        e.netScore = e.grossScore - e.courseHandicap) ∧
    (∀ u ∈ aggregateRounds rounds,
      u.totalNet
        = ((userRounds rounds u.userId).map
            (fun r => calculateNetScore r.totalScore (r.courseHandicap.getD 0))).sum) := by
  refine ⟨fun g c => rfl, ?_, ?_⟩
  · intro e he
    have he2 : e ∈ List.zipWith setPosition
        (sortEntries sortBy (rounds.map mkEventEntry))
        (rankPositions (scoreOf sortBy)
          (sortEntries sortBy (rounds.map mkEventEntry))) := he
    rcases exists_of_mem_zipWith he2 with ⟨e0, p, he0, hp, heq⟩
    have he0e : e0 ∈ rounds.map mkEventEntry :=
      (sortEntries_perm sortBy _).mem_iff.mp he0
    rcases List.mem_map.mp he0e with ⟨r, hr, hre⟩
    subst heq
    subst hre
    exact ⟨r, hr, rfl, rfl, rfl, rfl⟩
  · intro u hu
    exact (aggregateRounds_spec rounds u hu).2.2.1

unseal Rat.add Rat.sub Rat.mul Rat.inv in
theorem missing_handicap_defaults_zero_witness :
    (∃ r ∈ eventExampleRounds,
      ((computeEventLeaderboard eventExampleRounds SortBy.net).get
          ⟨0, by decide⟩).grossScore = r.totalScore ∧
      ((computeEventLeaderboard eventExampleRounds SortBy.net).get
          ⟨0, by decide⟩).courseHandicap = r.courseHandicap.getD 0 ∧
      ((computeEventLeaderboard eventExampleRounds SortBy.net).get
          ⟨0, by decide⟩).netScore
        = calculateNetScore r.totalScore (r.courseHandicap.getD 0) ∧
      ((computeEventLeaderboard eventExampleRounds SortBy.net).get
          ⟨0, by decide⟩).netScore
        = ((computeEventLeaderboard eventExampleRounds SortBy.net).get
            ⟨0, by decide⟩).grossScore
          - ((computeEventLeaderboard eventExampleRounds SortBy.net).get
              ⟨0, by decide⟩).courseHandicap) ∧
    ((aggregateRounds seasonExampleRounds).get ⟨0, by decide⟩).totalNet
      = ((userRounds seasonExampleRounds
            ((aggregateRounds seasonExampleRounds).get ⟨0, by decide⟩).userId).map
          (fun r => calculateNetScore r.totalScore (r.courseHandicap.getD 0))).sum :=
  ⟨(missing_handicap_defaults_zero eventExampleRounds SortBy.net).2.1
      ((computeEventLeaderboard eventExampleRounds SortBy.net).get ⟨0, by decide⟩)
      (List.get_mem _ _ _),
   (missing_handicap_defaults_zero seasonExampleRounds SortBy.net).2.2
      ((aggregateRounds seasonExampleRounds).get ⟨0, by decide⟩)
      (List.get_mem _ _ _)⟩

/-- Claim C9: an upstream fetch failure surfaces as a descriptive, non-empty
error message alongside an empty list, for both the event leaderboard and the
season standings, while a null or empty rounds payload returns an empty list
with an empty error message — so the caller can distinguish the two. -/
theorem fetch_failure_vs_empty (m : String) (sortBy : SortBy) (limit : ℕ) :
    fetchEventLeaderboard (Except.error m) sortBy
        = ([], "Failed to fetch leaderboard: " ++ m) ∧
    fetchEventLeaderboard (Except.ok none) sortBy = ([], "") ∧
    fetchEventLeaderboard (Except.ok (some [])) sortBy = ([], "") ∧
    fetchSeasonStandings (Except.error m) sortBy limit
        = ([], "Failed to fetch season standings: " ++ m) ∧
    fetchSeasonStandings (Except.ok none) sortBy limit = ([], "") ∧
    fetchSeasonStandings (Except.ok (some [])) sortBy limit = ([], "") ∧
    (fetchEventLeaderboard (Except.error m) sortBy).2 ≠ "" ∧
    (fetchSeasonStandings (Except.error m) sortBy limit).2 ≠ "" := by
  refine ⟨rfl, rfl, rfl, rfl, rfl, rfl, ?_, ?_⟩
  · intro h
    have h3 : "Failed to fetch leaderboard: " ++ m = "" := h
    have h2 := congrArg String.length h3
    rw [String.length_append] at h2
    have h29 : ("Failed to fetch leaderboard: ").length = 29 := rfl
    have h0 : ("" : String).length = 0 := rfl
    rw [h29, h0] at h2
    omega
  · intro h
    have h3 : "Failed to fetch season standings: " ++ m = "" := h
    have h2 := congrArg String.length h3
    rw [String.length_append] at h2
    have h34 : ("Failed to fetch season standings: ").length = 34 := rfl
    have h0 : ("" : String).length = 0 := rfl
    rw [h34, h0] at h2
    omega

unseal Rat.add Rat.sub Rat.mul Rat.inv in
theorem rankLoop_standard_competition_witness :
    rankPositions (fun q : ℚ => q) [70, 70, 72]
        = [70, 70, 72].map
            (fun a => 1 + [(70 : ℚ), 70, 72].countP (fun b => decide (b < a))) ∧
    (rankPositions (fun q : ℚ => q) [70, 70, 72]).Sorted (· ≤ ·) ∧
    (([(70 : ℚ), 70, 72] ≠ [])
      → (rankPositions (fun q : ℚ => q) [70, 70, 72]).head? = some 1) :=
  rankLoop_standard_competition (fun q : ℚ => q) [70, 70, 72] (by decide)

unseal Rat.add Rat.sub Rat.mul Rat.inv in
theorem adjustedGross_esc_witness :
    [(4 : ℚ), 9, 6].length = [(4 : ℚ), 5, 4].length ∧
    calculateAdjustedGrossScore [(4 : ℚ), 9, 6] [(4 : ℚ), 5, 4] ((12 : ℤ) : ℚ)
      = Except.ok
          ((List.zipWith (fun s p => min s (escCap (12 : ℤ) p))
            [(4 : ℚ), 9, 6] [(4 : ℚ), 5, 4]).sum) :=
  ⟨by decide, adjustedGross_esc 12 [(4 : ℚ), 9, 6] [(4 : ℚ), 5, 4] (by decide)⟩
